import Mathlib

/-
Verification of the Wi-Fi scan / channel-recommendation core.

The repository contains two implementations:

* namespace `Nl`      — src/lib_rust.rs: a standalone netlink client with a
  hand-rolled TLV attribute walk (`parse_bss`), a range-based
  frequency-to-channel map, the scan-driver wait loop (`wait_scan_done`),
  the dump loop (`dump_scan_results`) and a connectionless channel score
  (`best_channel_from_rows`).
* namespace `Backend` — src/backend/src/lib_rust.rs: a neli-wifi based
  implementation with an exact frequency table, a band classifier, the
  connected-AP lookup (`get_connected_bssid`) and the connected-aware
  channel selector (`compute_best_channel_internal`), wrapped for Python
  by src/backend/src/lib.rs (`connected_bssid`).

Modelling conventions:
* Rust `u8`/`u16`/`u32` values are `Nat`; the one place the source
  reinterprets bits as `i32` is made explicit (`Nl.toI32`).
* `f32` arithmetic is modelled exactly over `ℚ`.  Every constant the claims
  touch (-80, -90, -50, 10, 100, and the small sums built from them) is
  exactly representable in `f32`, and no claim depends on rounding.
* Rust `HashMap` accumulation is modelled as an association list updated in
  first-insertion order.  The source iterates its hash maps in arbitrary
  order and the spec declares tie-breaking arbitrary; no claim below
  depends on iteration order.
* `String::from_utf8_lossy` is abstracted to the raw byte list
  (`Nl.from_utf8_lossy`); no claim depends on UTF-8 decoding itself.
* Loops over byte buffers are written with an explicit iteration bound
  (`fuel`).  Each iteration of the TLV walk consumes at least four bytes,
  so `buffer.length` iterations always suffice; the wrappers instantiate
  the bound that way, mirroring the terminating loops of the source.
* Kernel/transport interaction is an explicit environment value
  (`Backend.Env`, `Nl.PollRes`, `Nl.DumpItem`), one constructor per
  outcome the source distinguishes.
-/

/-- Hex digit character: 0-9 then lowercase a-f, as produced by `{:02x}`. -/
def hexDigitChar (n : Nat) : Char :=
  if n < 10 then Char.ofNat (48 + n) else Char.ofNat (87 + n)

/-- Two lowercase hex digits of one byte, as produced by `{:02x}`. -/
def byteHex (b : Nat) : String :=
  String.mk [hexDigitChar (b / 16 % 16), hexDigitChar (b % 16)]

/-- The `":"` separator used between MAC bytes. -/
def colonSep : String :=
  ":"

namespace Backend

/-- A 6-byte MAC address (`[u8; 6]` in src/backend/src/lib_rust.rs). -/
structure Mac where
  b0 : Nat
  b1 : Nat
  b2 : Nat
  b3 : Nat
  b4 : Nat
  b5 : Nat
deriving DecidableEq

/-- `BssRow` of src/backend/src/lib_rust.rs: one observed access point. -/
structure BssRow where
  ssid : Option (List Nat)
  bssid : Option Mac
  freq_mhz : Option Nat
  signal_dbm : Option ℚ
  channel : Option Nat
deriving DecidableEq

/-- `vec_to_mac`: first six bytes of a byte vector, `None` if shorter. -/
def vec_to_mac (v : List Nat) : Option Mac :=
  match v with
  | a :: b :: c :: d :: e :: f :: _ => some ⟨a, b, c, d, e, f⟩
  | _ => none

/-- `format_mac`: lowercase colon-separated hex rendering of a MAC. -/
def format_mac (m : Mac) : String :=
  String.intercalate colonSep
    [byteHex m.b0, byteHex m.b1, byteHex m.b2, byteHex m.b3, byteHex m.b4, byteHex m.b5]

/-- `freq_to_channel` of src/backend/src/lib_rust.rs: the exact frequency
table; `0` plays the role of "no channel" exactly as in the source. -/
def freq_to_channel (freq : Nat) : Nat :=
  match freq with
  | 2412 => 1
  | 2417 => 2
  | 2422 => 3
  | 2427 => 4
  | 2432 => 5
  | 2437 => 6
  | 2442 => 7
  | 2447 => 8
  | 2452 => 9
  | 2457 => 10
  | 2462 => 11
  | 2467 => 12
  | 2472 => 13
  | 2482 => 14
  | 5180 => 36
  | 5200 => 40
  | 5220 => 44
  | 5240 => 48
  | 5260 => 52
  | 5280 => 56
  | 5300 => 60
  | 5320 => 64
  | 5500 => 100
  | 5520 => 104
  | 5540 => 108
  | 5560 => 112
  | 5580 => 116
  | 5600 => 120
  | 5620 => 124
  | 5640 => 128
  | 5660 => 132
  | 5680 => 136
  | 5700 => 140
  | 5745 => 149
  | 5765 => 153
  | 5785 => 157
  | 5805 => 161
  | 5825 => 165
  | 5845 => 169
  | 5865 => 173
  | 5885 => 177
  | _ => 0

/-- `freq_band`: 1 = 2.4 GHz, 2 = 5 GHz, 3 = all others. -/
def freq_band (freq_mhz : Nat) : Nat :=
  if 2401 ≤ freq_mhz ∧ freq_mhz ≤ 2495 then 1
  else if 5150 ≤ freq_mhz ∧ freq_mhz ≤ 5895 then 2
  else 3

/-- `same_device`: bytes 1..=4 of the two MACs coincide. -/
def same_device (a b : Mac) : Bool :=
  a.b1 == b.b1 && a.b2 == b.b2 && a.b3 == b.b3 && a.b4 == b.b4

/-- `THRESH_DBM` of `compute_best_channel_internal`. -/
def THRESH_DBM : ℚ := -80

/-- `MARGIN` of `compute_best_channel_internal`. -/
def MARGIN : ℚ := 10

/-- The first loop of `compute_best_channel_internal`: find the record whose
BSSID equals the connected MAC; the source breaks at the first match, and
only a match carrying both channel and frequency yields a current pair. -/
def findCurrent (rows : List BssRow) (cmac : Mac) : Option (Nat × Nat) :=
  match rows with
  | [] => none
  | r :: rest =>
    match r.bssid with
    | some rb =>
      if rb = cmac then
        match r.channel, r.freq_mhz with
        | some ch, some freq => some (ch, freq_band freq)
        | _, _ => none
      else findCurrent rest cmac
    | none => findCurrent rest cmac

/-- `*weight.entry(key).or_insert(0.0) += w` on an association list. -/
def addWeight (tbl : List ((Nat × Nat) × ℚ)) (key : Nat × Nat) (w : ℚ) :
    List ((Nat × Nat) × ℚ) :=
  match tbl with
  | [] => [(key, w)]
  | (k, v) :: rest =>
    if k = key then (k, v + w) :: rest else (k, v) :: addWeight rest key w

/-- One iteration of the weight-building loop of
`compute_best_channel_internal` (lines 267-292): skip records without a
positive channel or a frequency, skip signals strictly below `THRESH_DBM`
(absent signals default to -90.0), skip the connected BSSID and
same-device BSSIDs, otherwise accumulate `max(signal + 100, 0)`. -/
def weightStep (connected : Option Mac) (tbl : List ((Nat × Nat) × ℚ)) (r : BssRow) :
    List ((Nat × Nat) × ℚ) :=
  match r.channel with
  | some ch =>
    if 0 < ch then
      match r.freq_mhz with
      | some freq =>
        let band := freq_band freq
        let sig := r.signal_dbm.getD (-90)
        if sig < THRESH_DBM then tbl
        else
          match connected, r.bssid with
          | some cmac, some rb =>
            if rb = cmac ∨ same_device cmac rb = true then tbl
            else addWeight tbl (band, ch) (max (sig + 100) 0)
          | _, _ => addWeight tbl (band, ch) (max (sig + 100) 0)
      | none => tbl
    else tbl
  | none => tbl

/-- The interference-weight table keyed by `(band, channel)`. -/
def buildWeight (connected : Option Mac) (rows : List BssRow) : List ((Nat × Nat) × ℚ) :=
  rows.foldl (weightStep connected) []

/-- Minimum-weight channel among entries of one band (first strictly
smaller entry wins, as in the source's `w < bw` update). -/
def bandMin (tbl : List ((Nat × Nat) × ℚ)) (band : Nat) : Option (Nat × ℚ) :=
  tbl.foldl
    (fun best e =>
      if e.1.1 = band then
        match best with
        | none => some (e.1.2, e.2)
        | some (_, bw) => if e.2 < bw then some (e.1.2, e.2) else best
      else best)
    none

/-- `*weight.get(&key).unwrap_or(&0.0)`. -/
def lookupWeight (tbl : List ((Nat × Nat) × ℚ)) (key : Nat × Nat) : ℚ :=
  match tbl.find? (fun e => e.1 == key) with
  | some e => e.2
  | none => 0

/-- Global minimum-weight channel across all bands. -/
def globalArgmin (tbl : List ((Nat × Nat) × ℚ)) : Option (Nat × ℚ) :=
  tbl.foldl
    (fun best e =>
      match best with
      | none => some (e.1.2, e.2)
      | some (_, bw) => if e.2 < bw then some (e.1.2, e.2) else best)
    none

/-- The pure core of `compute_best_channel_internal` (lines 246-341),
taking the scanned rows and the connected BSSID as inputs (the source
obtains them from the two preceding transport calls). -/
def compute_best_channel_core (rows : List BssRow) (connected : Option Mac) : Nat :=
  let current : Option (Nat × Nat) :=
    match connected with
    | some cmac => findCurrent rows cmac
    | none => none
  let tbl := buildWeight connected rows
  match current with
  | some (cur_ch, cur_band) =>
    match bandMin tbl cur_band with
    | some (best_ch, best_w) =>
      if lookupWeight tbl (cur_band, cur_ch) ≤ best_w + MARGIN then cur_ch else best_ch
    | none => cur_ch
  | none =>
    if tbl.isEmpty then 1
    else
      match globalArgmin tbl with
      | some p => p.1
      | none => 1

/-- One enumerated interface (only its `index` field matters here). -/
structure Iface where
  index : Option Nat

/-- The station-info response (only its `bssid` field is read). -/
structure Station where
  bssid : Option (List Nat)

/-- Outcomes of the underlying transport for one `get_connected_bssid`
call: the result of `Socket::connect()`, of `get_interfaces_info()`, and
of `get_station_info(ifindex)` (the latter a function of the index). -/
structure Env where
  connect_res : Except Unit Unit
  interfaces_res : Except Unit (List Iface)
  station_res : Nat → Except Unit Station

/-- The error cases `get_connected_bssid` can propagate. -/
inductive NlErr
  | connectFail
  | enumFail
  | noInterface
  | indexMissing
  | stationFail
deriving DecidableEq

/-- `get_connected_bssid` of src/backend/src/lib_rust.rs (lines 187-210):
every `?` propagates the transport failure; only a missing or short BSSID
field in a successful station response yields `Ok(None)`. -/
def get_connected_bssid (env : Env) : Except NlErr (Option Mac) :=
  match env.connect_res with
  | .error _ => .error .connectFail
  | .ok _ =>
    match env.interfaces_res with
    | .error _ => .error .enumFail
    | .ok ifaces =>
      match ifaces.head? with
      | none => .error .noInterface
      | some iface =>
        match iface.index with
        | none => .error .indexMissing
        | some ifindex =>
          match env.station_res ifindex with
          | .error _ => .error .stationFail
          | .ok st =>
            match st.bssid with
            | some v =>
              match vec_to_mac v with
              | some mac => .ok (some mac)
              | none => .ok none
            | none => .ok none

/-- `connected_bssid` of src/backend/src/lib.rs (lines 81-88): formats the
MAC on success; `map_pyerr` turns an internal error into a raised Python
`RuntimeError`, modelled by keeping the error. -/
def connected_bssid (env : Env) : Except NlErr (Option String) :=
  match get_connected_bssid env with
  | .error e => .error e
  | .ok none => .ok none
  | .ok (some mac) => .ok (some (format_mac mac))

end Backend

namespace Nl

/-- `BssRow` of src/lib_rust.rs (BSSID already formatted as a string). -/
structure BssRow where
  ssid : Option (List Nat)
  bssid : Option String
  freq_mhz : Option Nat
  signal_dbm : Option ℚ
  channel : Option Nat
deriving DecidableEq

/-- The default (all-`None`) row, `BssRow::default()`. -/
def defaultRow : BssRow :=
  ⟨none, none, none, none, none⟩

/-- `String::from_utf8_lossy` abstracted to the raw byte sequence; no
claim depends on the UTF-8 decoding itself, only on which attribute the
bytes come from. -/
def from_utf8_lossy (bs : List Nat) : List Nat :=
  bs

/-- `format_mac` of src/lib_rust.rs: first six bytes, colon-separated hex. -/
def format_mac (bytes : List Nat) : String :=
  String.intercalate colonSep ((bytes.take 6).map byteHex)

/-- `le_u32`: little-endian u32 from the first four bytes, error (here
`none`) if fewer than four bytes. -/
def le_u32 (b : List Nat) : Option Nat :=
  match b with
  | x0 :: x1 :: x2 :: x3 :: _ => some (x0 + 256 * x1 + 65536 * x2 + 16777216 * x3)
  | _ => none

/-- Reinterpret a u32 bit pattern as i32 (`mbm_u32 as i32`). -/
def toI32 (n : Nat) : Int :=
  if n < 2147483648 then (n : Int) else (n : Int) - 4294967296

/-- `freq_to_channel` of src/lib_rust.rs (lines 282-289): range based,
including the 6 GHz range 5955-7115. -/
def freq_to_channel (f : Nat) : Option Nat :=
  if 2412 ≤ f ∧ f ≤ 2484 then some ((f - 2407) / 5)
  else if 5180 ≤ f ∧ f ≤ 5885 then some ((f - 5000) / 5)
  else if 5955 ≤ f ∧ f ≤ 7115 then some ((f - 5950) / 5)
  else none

/-- `parse_ssid_ie`: walk the information elements (`[id, len, value...]`),
return the value of the first element with id 0, `None` when a declared
length overruns the remaining bytes or no SSID element exists. -/
def parse_ssid_ie : List Nat → Option (List Nat)
  | id :: len :: rest =>
    if rest.length < len then none
    else if id = 0 then some (rest.take len)
    else parse_ssid_ie (rest.drop len)
  | _ => none
termination_by l => l.length
decreasing_by
  simp only [List.length_drop, List.length_cons]
  omega

/-- One arm of the `match attr_type` in `parse_bss` (lines 175-227),
applied to the row being built. -/
def applyAttr (row : BssRow) (e : Nat × List Nat) : BssRow :=
  let t := e.1
  let payload := e.2
  if t = 1 then
    if 6 ≤ payload.length then { row with bssid := some (format_mac payload) } else row
  else if t = 2 then
    match le_u32 payload with
    | some f => { row with freq_mhz := some f, channel := freq_to_channel f }
    | none => row
  else if t = 8 then
    match row.ssid with
    | none =>
      match parse_ssid_ie payload with
      | some s => { row with ssid := some s }
      | none => row
    | some _ => row
  else if t = 10 then
    match le_u32 payload with
    | some v => { row with signal_dbm := some ((toI32 v : ℚ) / 100) }
    | none => row
  else if t = 7 then
    match row.signal_dbm, payload with
    | none, p0 :: _ => { row with signal_dbm := some ((p0 : ℚ) - 100) }
    | _, _ => row
  else if t = 31 then
    match row.ssid, payload with
    | none, _ :: _ => { row with ssid := some (from_utf8_lossy payload) }
    | _, _ => row
  else row

/-- The TLV walk of `parse_bss` (lines 162-240), yielding the
`(type, payload)` pairs it processes.  The loop stops when fewer than 4
bytes remain, when the declared length is `< 4` or overruns the remaining
buffer, and after processing an entry whose padded length overruns; one
fuel unit per iteration, each iteration consuming at least 4 bytes. -/
def decodeAux : Nat → List Nat → List (Nat × List Nat)
  | 0, _ => []
  | fuel + 1, bs =>
    match bs with
    | b0 :: b1 :: b2 :: b3 :: rest =>
      let len := b0 + 256 * b1
      if len < 4 ∨ (b0 :: b1 :: b2 :: b3 :: rest).length < len then []
      else
        let t := b2 + 256 * b3
        let payload := rest.take (len - 4)
        let adv := (len + 3) / 4 * 4
        if (b0 :: b1 :: b2 :: b3 :: rest).length < adv then [(t, payload)]
        else (t, payload) :: decodeAux fuel ((b0 :: b1 :: b2 :: b3 :: rest).drop adv)
    | _ => []

/-- The attribute walk on a whole buffer. -/
def decode_attrs (bs : List Nat) : List (Nat × List Nat) :=
  decodeAux bs.length bs

/-- Range slice `&bs[i..j]` made partial: `none` exactly when Rust range
indexing would panic. -/
def sliceChk (bs : List Nat) (i j : Nat) : Option (List Nat) :=
  if i ≤ j ∧ j ≤ bs.length then some ((bs.drop i).take (j - i)) else none

/-- The same walk with every byte access partial (`List.get?`, `sliceChk`):
it returns `none` exactly when some read of the source loop would reach
past the buffer's end. -/
def decodeChkAux : Nat → List Nat → Option (List (Nat × List Nat))
  | 0, _ => some []
  | fuel + 1, bs =>
    if bs.length < 4 then some []
    else
      match bs.get? 0, bs.get? 1, bs.get? 2, bs.get? 3 with
      | some b0, some b1, some b2, some b3 =>
        let len := b0 + 256 * b1
        if len < 4 ∨ bs.length < len then some []
        else
          let t := b2 + 256 * b3
          match sliceChk bs 4 len with
          | some payload =>
            let adv := (len + 3) / 4 * 4
            if bs.length < adv then some [(t, payload)]
            else
              match decodeChkAux fuel (bs.drop adv) with
              | some restEntries => some ((t, payload) :: restEntries)
              | none => none
          | none => none
      | _, _, _, _ => none

/-- Bounds-checked variant of `decode_attrs`. -/
def decode_attrs_checked (bs : List Nat) : Option (List (Nat × List Nat)) :=
  decodeChkAux bs.length bs

/-- The row-building loop of `parse_bss`: identical walk, each processed
entry applied to the row. -/
def parseLoopAux : Nat → List Nat → BssRow → BssRow
  | 0, _, row => row
  | fuel + 1, bs, row =>
    match bs with
    | b0 :: b1 :: b2 :: b3 :: rest =>
      let len := b0 + 256 * b1
      if len < 4 ∨ (b0 :: b1 :: b2 :: b3 :: rest).length < len then row
      else
        let t := b2 + 256 * b3
        let payload := rest.take (len - 4)
        let row2 := applyAttr row (t, payload)
        let adv := (len + 3) / 4 * 4
        if (b0 :: b1 :: b2 :: b3 :: rest).length < adv then row2
        else parseLoopAux fuel ((b0 :: b1 :: b2 :: b3 :: rest).drop adv) row2
    | _ => row

/-- `parse_bss` (lines 162-240): the source always returns `Some(row)`. -/
def parse_bss (nested : List Nat) : Option BssRow :=
  some (parseLoopAux nested.length nested defaultRow)

/-- One well-formed TLV entry: 16-bit little-endian total length
(payload + 4-byte header), 16-bit little-endian type, payload, zero
padding to the next 4-byte boundary. -/
def encodeAttr (e : Nat × List Nat) : List Nat :=
  let len := e.2.length + 4
  (len % 256) :: (len / 256) :: (e.1 % 256) :: (e.1 / 256) ::
    (e.2 ++ List.replicate ((len + 3) / 4 * 4 - len) 0)

/-- Concatenation of well-formed, padded TLV entries. -/
def encodeAttrs (es : List (Nat × List Nat)) : List Nat :=
  (es.map encodeAttr).flatten

/-- An entry is encodable: its type and total length fit in a u16. -/
def wfAttr (e : Nat × List Nat) : Prop :=
  e.1 < 65536 ∧ e.2.length + 4 < 65536

/-- The precise-signal value an entry would contribute: entries of type 10
with at least four payload bytes, decoded as mBm / 100. -/
def preciseSignalOf (e : Nat × List Nat) : Option ℚ :=
  if e.1 = 10 then
    match le_u32 e.2 with
    | some v => some ((toI32 v : ℚ) / 100)
    | none => none
  else none

/-- The value of the last valid precise-signal entry of a list, if any. -/
def lastPrecise (es : List (Nat × List Nat)) : Option ℚ :=
  es.foldl
    (fun acc e =>
      match preciseSignalOf e with
      | some v => some v
      | none => acc)
    none

/-- The genl commands `wait_scan_done` distinguishes. -/
inductive Cmd
  | newScanResults
  | scanAborted
  | otherCmd
deriving DecidableEq

/-- One poll of the transport inside the wait loop: nothing queued
(`iter.next()` returned `None`, the source sleeps 20 ms), a message that
is not an Ok-with-genl-payload (skipped), or a genl command. -/
inductive PollRes
  | noMsg
  | badMsg
  | got (c : Cmd)
deriving DecidableEq

/-- Outcome of `wait_scan_done`. -/
inductive WaitResult
  | ok
  | abortedScan
  | timedOut
deriving DecidableEq

/-- The wait loop of `wait_scan_done` (lines 87-106).  `e i` is the
wall-clock elapsed time in milliseconds observed at the top of iteration
`i` (`start.elapsed()`); `poll i` is what the transport yields at
iteration `i`.  One fuel unit per iteration; since every iteration takes
at least one millisecond of real time, `timeout + 1` units always cover
the loop's real executions (theorem `C7` part 4 makes the fuel
irrelevance precise). -/
def waitLoop (poll : Nat → PollRes) (e : Nat → Nat) (timeout : Nat) :
    Nat → Nat → WaitResult
  | _, 0 => .timedOut
  | i, fuel + 1 =>
    if e i < timeout then
      match poll i with
      | .got .newScanResults => .ok
      | .got .scanAborted => .abortedScan
      | _ => waitLoop poll e timeout (i + 1) fuel
    else .timedOut

/-- `wait_scan_done` with the 4-second (4000 ms) timeout the caller
`scan_all_ssids` passes. -/
def wait_scan_done (poll : Nat → PollRes) (e : Nat → Nat) : WaitResult :=
  waitLoop poll e 4000 0 4001

/-- The netlink message types `dump_scan_results` distinguishes. -/
inductive NlMsgType
  | errMsg
  | doneMsg
  | dataMsg
deriving DecidableEq

/-- The numeric value of `Nl80211Attr::AttrBss`. -/
def attrBss : Nat := 47

/-- One item yielded by the response iterator of the dump: a decode/receive
failure (`Some(Err(_))`, which ends the `while let` loop), or a message
with its type and generic attributes (a message without a genl payload is
a `dataMsg` with no attributes). -/
inductive DumpItem
  | recvFail
  | msg (ty : NlMsgType) (attrs : List (Nat × List Nat))

/-- The error message of the `Nlmsg::Error` arm. -/
def getScanErrMsg : String :=
  "GET_SCAN: netlink error"

/-- The consume loop of `dump_scan_results` (lines 129-150): `Error` bails
out (discarding the accumulator), `Done` breaks with the accumulator, any
other message contributes the parsed rows of its `AttrBss` attributes. -/
def dump_loop : List DumpItem → List BssRow → Except String (List BssRow)
  | [], acc => .ok acc
  | .recvFail :: _, acc => .ok acc
  | .msg ty attrs :: rest, acc =>
    match ty with
    | .errMsg => .error getScanErrMsg
    | .doneMsg => .ok acc
    | .dataMsg =>
      dump_loop rest
        (acc ++ attrs.filterMap (fun a => if a.1 = attrBss then parse_bss a.2 else none))

/-- `dump_scan_results` on a given response stream. -/
def dump_scan_results (items : List DumpItem) : Except String (List BssRow) :=
  dump_loop items []

/-- `entry(ch).or_insert(0.0) += w` keyed by channel only. -/
def addWeightCh (tbl : List (Nat × ℚ)) (ch : Nat) (w : ℚ) : List (Nat × ℚ) :=
  match tbl with
  | [] => [(ch, w)]
  | (k, v) :: rest =>
    if k = ch then (k, v + w) :: rest else (k, v) :: addWeightCh rest ch w

/-- One iteration of the weight loop of `best_channel_from_rows`
(lines 302-327): positive channel required, missing signal defaults to
-80.0, weight `signal + 100` (no floor, no threshold in this variant). -/
def rowWeightStep (tbl : List (Nat × ℚ)) (r : BssRow) : List (Nat × ℚ) :=
  match r.channel with
  | some ch =>
    if 0 < ch then addWeightCh tbl ch (r.signal_dbm.getD (-80) + 100) else tbl
  | none => tbl

/-- The per-channel weight table of `best_channel_from_rows`. -/
def rowWeights (rows : List BssRow) : List (Nat × ℚ) :=
  rows.foldl rowWeightStep []

/-- `best_channel_from_rows`: channel of least accumulated weight, 1 when
nothing was observed.  The `f32::INFINITY` sentinel of the source's
`(1, INFINITY)` starting pair is modelled as `none`. -/
def best_channel_from_rows (rows : List BssRow) : Nat :=
  let weight := rowWeights rows
  if weight.isEmpty then 1
  else
    (weight.foldl
      (fun best e =>
        match best.2 with
        | none => (e.1, some e.2)
        | some bw => if e.2 < bw then (e.1, some e.2) else best)
      ((1 : Nat), (none : Option ℚ))).1

end Nl

/- Helper lemmas about the weight-building step. -/

/-- Records whose (defaulted) signal is strictly below the floor are
skipped by the weight loop. -/
theorem weightStep_skip_low (connected : Option Backend.Mac)
    (tbl : List ((Nat × Nat) × ℚ)) (r : Backend.BssRow)
    (h : r.signal_dbm.getD (-90) < Backend.THRESH_DBM) :
    Backend.weightStep connected tbl r = tbl := by
  obtain ⟨ss, bb, ff, sg, chh⟩ := r
  rcases chh with _ | ch
  · rfl
  · by_cases h0 : 0 < ch
    · rcases ff with _ | f
      · simp [Backend.weightStep, h0]
      · simp only [Backend.weightStep] at h ⊢
        rw [if_pos h0, if_pos h]
    · simp [Backend.weightStep, h0]

/-- Rows whose (defaulted) signal is at or above the floor, with a usable
channel and frequency and no own/same-device match, are accumulated. -/
theorem buildWeight_filter_signalless (connected : Option Backend.Mac) :
    ∀ (rows : List Backend.BssRow) (acc : List ((Nat × Nat) × ℚ)),
      rows.foldl (Backend.weightStep connected) acc =
        (rows.filter (fun r => r.signal_dbm.isSome)).foldl
          (Backend.weightStep connected) acc := by
  intro rows
  induction rows with
  | nil => intro acc; rfl
  | cons r rest ih =>
    intro acc
    rcases hs : r.signal_dbm with _ | s
    · have hskip : Backend.weightStep connected acc r = acc := by
        apply weightStep_skip_low
        rw [hs]
        norm_num [Backend.THRESH_DBM]
      simp only [List.foldl_cons, List.filter_cons, hs, Option.isSome_none,
        Bool.false_eq_true, if_false, hskip]
      exact ih acc
    · simp only [List.foldl_cons, List.filter_cons, hs, Option.isSome_some, if_true]
      exact ih (Backend.weightStep connected acc r)

/-- C9: in the connected-aware channel selector, every record whose
`signal_dbm` is absent is excluded from the interference-weight table (the
missing signal defaults to -90.0, strictly below the -80.0 floor): the
weight loop leaves the table unchanged on such a record, and the whole
table equals the table built from the rows with a present signal only. -/
theorem C9_missing_signal_excluded :
    (∀ (connected : Option Backend.Mac) (tbl : List ((Nat × Nat) × ℚ))
      (r : Backend.BssRow), r.signal_dbm = none →
        Backend.weightStep connected tbl r = tbl) ∧
    (∀ (connected : Option Backend.Mac) (rows : List Backend.BssRow),
      Backend.buildWeight connected rows =
        Backend.buildWeight connected
          (rows.filter (fun r => r.signal_dbm.isSome))) := by
  constructor
  · intro connected tbl r hr
    apply weightStep_skip_low
    rw [hr]
    norm_num [Backend.THRESH_DBM]
  · intro connected rows
    exact buildWeight_filter_signalless connected rows []

/-- C9 witness: a concrete signal-less record on channel 6 adds nothing. -/
theorem C9_witness :
    Backend.weightStep none [((1, 1), 40)]
      ⟨none, some ⟨2, 2, 2, 2, 2, 2⟩, some 2437, none, some 6⟩ = [((1, 1), 40)] :=
  C9_missing_signal_excluded.1 none [((1, 1), 40)]
    ⟨none, some ⟨2, 2, 2, 2, 2, 2⟩, some 2437, none, some 6⟩ rfl

/-- C5 counterexample: a record at exactly -80.0 dBm (the floor) on
channel 6 is NOT excluded: the weight table built from it alone contains
the entry ((band 1, channel 6), weight 20), and in particular is not
empty, contradicting the claim that a signal of exactly -80.0 is excluded
from the weight table. -/
theorem C5_counterexample :
    Backend.buildWeight none
        [⟨none, some ⟨2, 2, 2, 2, 2, 2⟩, some 2437, some (-80), some 6⟩] =
      [((1, 6), 20)] ∧
    Backend.buildWeight none
        [⟨none, some ⟨2, 2, 2, 2, 2, 2⟩, some 2437, some (-80), some 6⟩] ≠ [] := by
  constructor
  · norm_num [Backend.buildWeight, Backend.weightStep, Backend.THRESH_DBM,
      Backend.freq_band, Backend.addWeight]
  · norm_num [Backend.buildWeight, Backend.weightStep, Backend.THRESH_DBM,
      Backend.freq_band, Backend.addWeight]

/-- C5 amended: the comparison against the floor is strict. Every record
whose signal is strictly below `THRESH_DBM = -80.0` contributes zero
weight regardless of its channel (a concrete -95 dBm record leaves the
table empty), while a record at exactly -80.0 dBm is included,
contributing `(-80) + 100 = 20` weight. -/
theorem C5_signal_floor_amended :
    (∀ (connected : Option Backend.Mac) (tbl : List ((Nat × Nat) × ℚ))
      (r : Backend.BssRow) (s : ℚ), r.signal_dbm = some s →
        s < Backend.THRESH_DBM → Backend.weightStep connected tbl r = tbl) ∧
    Backend.buildWeight none
        [⟨none, some ⟨2, 2, 2, 2, 2, 2⟩, some 2437, some (-95), some 6⟩] = [] ∧
    Backend.buildWeight none
        [⟨none, some ⟨2, 2, 2, 2, 2, 2⟩, some 2437, some (-80), some 6⟩] =
      [((1, 6), 20)] := by
  refine ⟨?_, ?_, ?_⟩
  · intro connected tbl r s hs hlt
    apply weightStep_skip_low
    rw [hs]
    exact hlt
  · norm_num [Backend.buildWeight, Backend.weightStep, Backend.THRESH_DBM,
      Backend.freq_band, Backend.addWeight]
  · norm_num [Backend.buildWeight, Backend.weightStep, Backend.THRESH_DBM,
      Backend.freq_band, Backend.addWeight]

/-- C5 witness: the general below-floor part applied to a concrete -95 dBm
record on channel 11. -/
theorem C5_witness :
    Backend.weightStep none []
      ⟨none, some ⟨3, 3, 3, 3, 3, 3⟩, some 2462, some (-95), some 11⟩ = [] :=
  C5_signal_floor_amended.1 none []
    ⟨none, some ⟨3, 3, 3, 3, 3, 3⟩, some 2462, some (-95), some 11⟩ (-95) rfl
    (by norm_num [Backend.THRESH_DBM])

/-- C4 counterexample: the range-based frequency-to-channel mapping of
src/lib_rust.rs resolves 5955 MHz (6 GHz band) to channel 1, but the band
classifier of src/backend/src/lib_rust.rs classifies 5955 MHz as band 3
(Other), contradicting the claim that every frequency with a resolved
channel maps to band 2.4 GHz or 5 GHz. -/
theorem C4_counterexample :
    Nl.freq_to_channel 5955 = some 1 ∧ Backend.freq_band 5955 = 3 := by
  constructor
  · decide
  · decide

/-- C4 amended: the consistency property holds for the frequency table and
band classifier that live together in the backend (a nonzero channel from
`Backend.freq_to_channel` implies band 1 or 2), and for the range-based
mapper of src/lib_rust.rs on frequencies below the 6 GHz range (below
5955 MHz); the 6 GHz frequencies 5955-7115, which only the range-based
mapper resolves, classify as band 3 (Other). -/
theorem C4_band_channel_amended :
    (∀ f, Backend.freq_to_channel f ≠ 0 →
      Backend.freq_band f = 1 ∨ Backend.freq_band f = 2) ∧
    (∀ f, f < 5955 → (Nl.freq_to_channel f).isSome = true →
      Backend.freq_band f = 1 ∨ Backend.freq_band f = 2) := by
  constructor
  · intro f h
    unfold Backend.freq_to_channel at h
    split at h <;> first | exact absurd rfl h | decide
  · intro f hf h
    unfold Nl.freq_to_channel at h
    unfold Backend.freq_band
    split_ifs at h ⊢ <;> simp_all <;> omega

/-- C4 witness: both amended parts applied at concrete frequencies
(2437 MHz via the backend table, 5825 MHz via the range mapper). -/
theorem C4_witness :
    (Backend.freq_band 2437 = 1 ∨ Backend.freq_band 2437 = 2) ∧
    (Backend.freq_band 5825 = 1 ∨ Backend.freq_band 5825 = 2) :=
  ⟨C4_band_channel_amended.1 2437 (by decide),
   C4_band_channel_amended.2 5825 (by decide) (by decide)⟩

/-- C1 counterexample: when `Socket::connect()` fails, `connected_bssid`
raises an error to the caller (a Python `RuntimeError` through
`map_pyerr`), contradicting the claim that it never fails for any
transport outcome. -/
theorem C1_counterexample :
    Backend.connected_bssid ⟨.error (), .ok [], fun _ => .ok ⟨none⟩⟩ =
      Except.error Backend.NlErr.connectFail := rfl

/-- C1 amended: only a missing (or shorter than 6 bytes) BSSID field in a
successful station response yields `None`; a connection failure, an
interface-enumeration failure, an empty interface list, a missing
interface index, and a station-info failure each propagate an error to
the caller, and the Python wrapper re-raises it. -/
theorem C1_connected_bssid_amended :
    (∀ (env : Backend.Env) (l : List Backend.Iface) (i : Backend.Iface)
      (n : Nat) (st : Backend.Station),
      env.connect_res = .ok () → env.interfaces_res = .ok l →
      l.head? = some i → i.index = some n → env.station_res n = .ok st →
      Backend.get_connected_bssid env = .ok (st.bssid.bind Backend.vec_to_mac)) ∧
    (∀ env : Backend.Env, env.connect_res = .error () →
      Backend.get_connected_bssid env = .error .connectFail) ∧
    (∀ env : Backend.Env, env.connect_res = .ok () →
      env.interfaces_res = .error () →
      Backend.get_connected_bssid env = .error .enumFail) ∧
    (∀ env : Backend.Env, env.connect_res = .ok () →
      env.interfaces_res = .ok [] →
      Backend.get_connected_bssid env = .error .noInterface) ∧
    (∀ (env : Backend.Env) (l : List Backend.Iface) (i : Backend.Iface),
      env.connect_res = .ok () → env.interfaces_res = .ok l →
      l.head? = some i → i.index = none →
      Backend.get_connected_bssid env = .error .indexMissing) ∧
    (∀ (env : Backend.Env) (l : List Backend.Iface) (i : Backend.Iface) (n : Nat),
      env.connect_res = .ok () → env.interfaces_res = .ok l →
      l.head? = some i → i.index = some n → env.station_res n = .error () →
      Backend.get_connected_bssid env = .error .stationFail) ∧
    (∀ (env : Backend.Env) (e : Backend.NlErr),
      Backend.get_connected_bssid env = .error e →
      Backend.connected_bssid env = .error e) := by
  refine ⟨?_, ?_, ?_, ?_, ?_, ?_, ?_⟩
  · intro env l i n st hc hi hh hx hst
    simp only [Backend.get_connected_bssid, hc, hi, hh, hx, hst]
    rcases hb : st.bssid with _ | v
    · rfl
    · simp only [Option.bind]
      rcases Backend.vec_to_mac v with _ | mac <;> rfl
  · intro env hc
    simp only [Backend.get_connected_bssid, hc]
  · intro env hc hi
    simp only [Backend.get_connected_bssid, hc, hi]
  · intro env hc hi
    simp only [Backend.get_connected_bssid, hc, hi, List.head?]
  · intro env l i hc hi hh hx
    simp only [Backend.get_connected_bssid, hc, hi, hh, hx]
  · intro env l i n hc hi hh hx hst
    simp only [Backend.get_connected_bssid, hc, hi, hh, hx, hst]
  · intro env e herr
    simp only [Backend.connected_bssid, herr]

/-- C1 witness: the success characterization applied to a concrete
environment whose station response carries a 6-byte BSSID. -/
theorem C1_witness :
    Backend.get_connected_bssid
        ⟨.ok (), .ok [⟨some 3⟩], fun _ => .ok ⟨some [1, 2, 3, 4, 5, 6]⟩⟩ =
      .ok (some ⟨1, 2, 3, 4, 5, 6⟩) :=
  C1_connected_bssid_amended.1
    ⟨.ok (), .ok [⟨some 3⟩], fun _ => .ok ⟨some [1, 2, 3, 4, 5, 6]⟩⟩
    [⟨some 3⟩] ⟨some 3⟩ 3 ⟨some [1, 2, 3, 4, 5, 6]⟩ rfl rfl rfl rfl rfl

/-- C2 counterexample: connected to channel 6 (band 1) whose accumulated
weight is 50, with alternative channel 11 at weight 65, the selector
returns 6, not 11: channel 6 itself is the band minimum, hence within
`MARGIN` of it.  The rows below realize exactly the claimed weight table
((1,6) at 50, (1,11) at 65): the first row is the connected AP (excluded
from weights), the second a channel-6 interferer at -50 dBm, the third a
channel-11 interferer at -35 dBm. -/
theorem C2_counterexample :
    Backend.buildWeight (some ⟨0, 0, 0, 0, 0, 1⟩)
        [⟨none, some ⟨0, 0, 0, 0, 0, 1⟩, some 2437, some (-40), some 6⟩,
         ⟨none, some ⟨2, 9, 9, 9, 9, 2⟩, some 2437, some (-50), some 6⟩,
         ⟨none, some ⟨3, 8, 8, 8, 8, 3⟩, some 2462, some (-35), some 11⟩] =
      [((1, 6), 50), ((1, 11), 65)] ∧
    Backend.compute_best_channel_core
        [⟨none, some ⟨0, 0, 0, 0, 0, 1⟩, some 2437, some (-40), some 6⟩,
         ⟨none, some ⟨2, 9, 9, 9, 9, 2⟩, some 2437, some (-50), some 6⟩,
         ⟨none, some ⟨3, 8, 8, 8, 8, 3⟩, some 2462, some (-35), some 11⟩]
        (some ⟨0, 0, 0, 0, 0, 1⟩) = 6 ∧
    Backend.compute_best_channel_core
        [⟨none, some ⟨0, 0, 0, 0, 0, 1⟩, some 2437, some (-40), some 6⟩,
         ⟨none, some ⟨2, 9, 9, 9, 9, 2⟩, some 2437, some (-50), some 6⟩,
         ⟨none, some ⟨3, 8, 8, 8, 8, 3⟩, some 2462, some (-35), some 11⟩]
        (some ⟨0, 0, 0, 0, 0, 1⟩) ≠ 11 := by
  refine ⟨?_, ?_, ?_⟩ <;>
    norm_num [Backend.compute_best_channel_core, Backend.findCurrent,
      Backend.buildWeight, Backend.weightStep, Backend.addWeight, Backend.bandMin,
      Backend.lookupWeight, Backend.globalArgmin, Backend.freq_band,
      Backend.same_device, Backend.THRESH_DBM, Backend.MARGIN, List.find?]

/-- C2 amended: when the connected channel and band are known and the band
has weight entries, the selector compares the current channel's own weight
(0.0 if absent) against the band minimum and stays within `MARGIN = 10`
of it, otherwise moves to the minimum-weight channel.  Concretely: current
channel 6 at weight 50 with channel 11 at weight 55 returns 6; with
channel 11 at weight 65 it still returns 6 (the current channel is the
minimum); it moves only when the current channel's weight exceeds the
minimum by more than the margin, e.g. current channel 6 at weight 65
against channel 11 at weight 50 returns 11. -/
theorem C2_hysteresis_amended :
    (∀ (rows : List Backend.BssRow) (cmac : Backend.Mac)
      (cur_ch cur_band best_ch : Nat) (best_w : ℚ),
      Backend.findCurrent rows cmac = some (cur_ch, cur_band) →
      Backend.bandMin (Backend.buildWeight (some cmac) rows) cur_band =
        some (best_ch, best_w) →
      Backend.compute_best_channel_core rows (some cmac) =
        if Backend.lookupWeight (Backend.buildWeight (some cmac) rows)
            (cur_band, cur_ch) ≤ best_w + Backend.MARGIN
        then cur_ch else best_ch) ∧
    Backend.compute_best_channel_core
        [⟨none, some ⟨0, 0, 0, 0, 0, 1⟩, some 2437, some (-40), some 6⟩,
         ⟨none, some ⟨2, 9, 9, 9, 9, 2⟩, some 2437, some (-50), some 6⟩,
         ⟨none, some ⟨3, 8, 8, 8, 8, 3⟩, some 2462, some (-45), some 11⟩]
        (some ⟨0, 0, 0, 0, 0, 1⟩) = 6 ∧
    Backend.compute_best_channel_core
        [⟨none, some ⟨0, 0, 0, 0, 0, 1⟩, some 2437, some (-40), some 6⟩,
         ⟨none, some ⟨2, 9, 9, 9, 9, 2⟩, some 2437, some (-50), some 6⟩,
         ⟨none, some ⟨3, 8, 8, 8, 8, 3⟩, some 2462, some (-35), some 11⟩]
        (some ⟨0, 0, 0, 0, 0, 1⟩) = 6 ∧
    Backend.compute_best_channel_core
        [⟨none, some ⟨0, 0, 0, 0, 0, 1⟩, some 2437, some (-40), some 6⟩,
         ⟨none, some ⟨2, 9, 9, 9, 9, 2⟩, some 2437, some (-35), some 6⟩,
         ⟨none, some ⟨3, 8, 8, 8, 8, 3⟩, some 2462, some (-50), some 11⟩]
        (some ⟨0, 0, 0, 0, 0, 1⟩) = 11 := by
  refine ⟨?_, ?_, ?_, ?_⟩
  · intro rows cmac cur_ch cur_band best_ch best_w hfc hbm
    simp only [Backend.compute_best_channel_core, hfc, hbm]
  all_goals
    norm_num [Backend.compute_best_channel_core, Backend.findCurrent,
      Backend.buildWeight, Backend.weightStep, Backend.addWeight, Backend.bandMin,
      Backend.lookupWeight, Backend.globalArgmin, Backend.freq_band,
      Backend.same_device, Backend.THRESH_DBM, Backend.MARGIN, List.find?]

/-- C2 witness: the general hysteresis rule applied to the concrete
"current at 65, alternative at 50" configuration, where the current
channel's weight exceeds the band minimum by more than the margin and the
selector moves to channel 11. -/
theorem C2_witness :
    Backend.compute_best_channel_core
        [⟨none, some ⟨0, 0, 0, 0, 0, 1⟩, some 2437, some (-40), some 6⟩,
         ⟨none, some ⟨2, 9, 9, 9, 9, 2⟩, some 2437, some (-35), some 6⟩,
         ⟨none, some ⟨3, 8, 8, 8, 8, 3⟩, some 2462, some (-50), some 11⟩]
        (some ⟨0, 0, 0, 0, 0, 1⟩) = 11 := by
  have happ := C2_hysteresis_amended.1
    [⟨none, some ⟨0, 0, 0, 0, 0, 1⟩, some 2437, some (-40), some 6⟩,
     ⟨none, some ⟨2, 9, 9, 9, 9, 2⟩, some 2437, some (-35), some 6⟩,
     ⟨none, some ⟨3, 8, 8, 8, 8, 3⟩, some 2462, some (-50), some 11⟩]
    ⟨0, 0, 0, 0, 0, 1⟩ 6 1 11 (50 : ℚ)
    (by norm_num [Backend.findCurrent, Backend.freq_band])
    (by norm_num [Backend.buildWeight, Backend.weightStep, Backend.addWeight,
      Backend.bandMin, Backend.freq_band, Backend.same_device, Backend.THRESH_DBM])
  rw [happ]
  norm_num [Backend.buildWeight, Backend.weightStep, Backend.addWeight,
    Backend.lookupWeight, Backend.freq_band, Backend.same_device,
    Backend.THRESH_DBM, Backend.MARGIN, List.find?]

/-- The band-restricted minimum, when it exists, is an entry of the table
(generalized over the fold accumulator). -/
theorem foldl_bandMin_mem (band : Nat) :
    ∀ (tbl : List ((Nat × Nat) × ℚ)) (acc : Option (Nat × ℚ)) (x : Nat × ℚ),
      tbl.foldl
        (fun best e =>
          if e.1.1 = band then
            match best with
            | none => some (e.1.2, e.2)
            | some (_, bw) => if e.2 < bw then some (e.1.2, e.2) else best
          else best) acc = some x →
      acc = some x ∨ ∃ e ∈ tbl, e.1.1 = band ∧ e.1.2 = x.1 ∧ e.2 = x.2 := by
  intro tbl
  induction tbl with
  | nil =>
    intro acc x h
    exact Or.inl h
  | cons e rest ih =>
    intro acc x h
    simp only [List.foldl_cons] at h
    rcases ih _ x h with h1 | ⟨e', he', hb, hc, hw⟩
    · by_cases hband : e.1.1 = band
      · rw [if_pos hband] at h1
        rcases acc with _ | ⟨c, bw⟩
        · simp only at h1
          obtain rfl : x = (e.1.2, e.2) := (Option.some.inj h1).symm
          exact Or.inr ⟨e, List.mem_cons_self e rest, hband, rfl, rfl⟩
        · simp only at h1
          by_cases hlt : e.2 < bw
          · rw [if_pos hlt] at h1
            obtain rfl : x = (e.1.2, e.2) := (Option.some.inj h1).symm
            exact Or.inr ⟨e, List.mem_cons_self e rest, hband, rfl, rfl⟩
          · rw [if_neg hlt] at h1
            exact Or.inl h1
      · rw [if_neg hband] at h1
        exact Or.inl h1
    · exact Or.inr ⟨e', List.mem_cons_of_mem e he', hb, hc, hw⟩

/-- The global minimum, when it exists, is an entry of the table. -/
theorem foldl_globalMin_mem :
    ∀ (tbl : List ((Nat × Nat) × ℚ)) (acc : Option (Nat × ℚ)) (x : Nat × ℚ),
      tbl.foldl
        (fun best e =>
          match best with
          | none => some (e.1.2, e.2)
          | some (_, bw) => if e.2 < bw then some (e.1.2, e.2) else best) acc = some x →
      acc = some x ∨ ∃ e ∈ tbl, e.1.2 = x.1 ∧ e.2 = x.2 := by
  intro tbl
  induction tbl with
  | nil =>
    intro acc x h
    exact Or.inl h
  | cons e rest ih =>
    intro acc x h
    simp only [List.foldl_cons] at h
    rcases ih _ x h with h1 | ⟨e', he', hc, hw⟩
    · rcases acc with _ | ⟨c, bw⟩
      · simp only at h1
        obtain rfl : x = (e.1.2, e.2) := (Option.some.inj h1).symm
        exact Or.inr ⟨e, List.mem_cons_self e rest, rfl, rfl⟩
      · simp only at h1
        by_cases hlt : e.2 < bw
        · rw [if_pos hlt] at h1
          obtain rfl : x = (e.1.2, e.2) := (Option.some.inj h1).symm
          exact Or.inr ⟨e, List.mem_cons_self e rest, rfl, rfl⟩
        · rw [if_neg hlt] at h1
          exact Or.inl h1
    · exact Or.inr ⟨e', List.mem_cons_of_mem e he', hc, hw⟩

/-- Every entry of `addWeight tbl key w` carries either the inserted key
or the key of an existing entry. -/
theorem addWeight_key_mem :
    ∀ (tbl : List ((Nat × Nat) × ℚ)) (key : Nat × Nat) (w : ℚ)
      (x : (Nat × Nat) × ℚ), x ∈ Backend.addWeight tbl key w →
      x.1 = key ∨ ∃ y ∈ tbl, y.1 = x.1 := by
  intro tbl
  induction tbl with
  | nil =>
    intro key w x hx
    simp only [Backend.addWeight, List.mem_singleton] at hx
    exact Or.inl (by rw [hx])
  | cons p rest ih =>
    intro key w x hx
    obtain ⟨k, v⟩ := p
    simp only [Backend.addWeight] at hx
    by_cases hk : k = key
    · rw [if_pos hk] at hx
      rcases List.mem_cons.mp hx with h1 | h1
      · exact Or.inl (by rw [h1, hk])
      · exact Or.inr ⟨x, List.mem_cons_of_mem _ h1, rfl⟩
    · rw [if_neg hk] at hx
      rcases List.mem_cons.mp hx with h1 | h1
      · exact Or.inr ⟨(k, v), List.mem_cons_self _ _, by rw [h1]⟩
      · rcases ih key w x h1 with h2 | ⟨y, hy, hyx⟩
        · exact Or.inl h2
        · exact Or.inr ⟨y, List.mem_cons_of_mem _ hy, hyx⟩

/-- Every entry produced by one weight step either shares its key with an
existing entry or carries the channel of the processed record. -/
theorem weightStep_key_mem (connected : Option Backend.Mac)
    (acc : List ((Nat × Nat) × ℚ)) (r : Backend.BssRow) (x : (Nat × Nat) × ℚ)
    (hx : x ∈ Backend.weightStep connected acc r) :
    (∃ y ∈ acc, y.1 = x.1) ∨ r.channel = some x.1.2 := by
  obtain ⟨ss, bb, ff, sg, chh⟩ := r
  simp only [Backend.weightStep] at hx
  rcases chh with _ | ch
  · exact Or.inl ⟨x, hx, rfl⟩
  · simp only at hx
    by_cases h0 : 0 < ch
    · rw [if_pos h0] at hx
      rcases ff with _ | f
      · exact Or.inl ⟨x, hx, rfl⟩
      · simp only at hx
        split at hx
        · exact Or.inl ⟨x, hx, rfl⟩
        · rcases connected with _ | cmac <;> rcases bb with _ | rb
          · simp only at hx
            rcases addWeight_key_mem acc _ _ x hx with h1 | ⟨y, hy, hyx⟩
            · right
              rw [h1]
            · exact Or.inl ⟨y, hy, hyx⟩
          · simp only at hx
            rcases addWeight_key_mem acc _ _ x hx with h1 | ⟨y, hy, hyx⟩
            · right
              rw [h1]
            · exact Or.inl ⟨y, hy, hyx⟩
          · simp only at hx
            rcases addWeight_key_mem acc _ _ x hx with h1 | ⟨y, hy, hyx⟩
            · right
              rw [h1]
            · exact Or.inl ⟨y, hy, hyx⟩
          · simp only at hx
            split at hx
            · exact Or.inl ⟨x, hx, rfl⟩
            · rcases addWeight_key_mem acc _ _ x hx with h1 | ⟨y, hy, hyx⟩
              · right
                rw [h1]
              · exact Or.inl ⟨y, hy, hyx⟩
    · rw [if_neg h0] at hx
      exact Or.inl ⟨x, hx, rfl⟩

/-- Every key of the accumulated weight table comes from the accumulator
or from the channel of some processed record. -/
theorem foldl_weight_key_mem (connected : Option Backend.Mac) :
    ∀ (rows : List Backend.BssRow) (acc : List ((Nat × Nat) × ℚ))
      (x : (Nat × Nat) × ℚ), x ∈ rows.foldl (Backend.weightStep connected) acc →
      (∃ y ∈ acc, y.1 = x.1) ∨ ∃ r ∈ rows, r.channel = some x.1.2 := by
  intro rows
  induction rows with
  | nil =>
    intro acc x hx
    exact Or.inl ⟨x, hx, rfl⟩
  | cons r rest ih =>
    intro acc x hx
    simp only [List.foldl_cons] at hx
    rcases ih _ x hx with ⟨y, hy, hyx⟩ | ⟨r', hr', hc⟩
    · rcases weightStep_key_mem connected acc r y hy with ⟨z, hz, hzy⟩ | hch
      · exact Or.inl ⟨z, hz, by rw [hzy, hyx]⟩
      · refine Or.inr ⟨r, List.mem_cons_self r rest, ?_⟩
        rw [hch, hyx]
    · exact Or.inr ⟨r', List.mem_cons_of_mem r hr', hc⟩

/-- `addWeightCh` analogue of `addWeight_key_mem`. -/
theorem addWeightCh_key_mem :
    ∀ (tbl : List (Nat × ℚ)) (ch : Nat) (w : ℚ) (x : Nat × ℚ),
      x ∈ Nl.addWeightCh tbl ch w → x.1 = ch ∨ ∃ y ∈ tbl, y.1 = x.1 := by
  intro tbl
  induction tbl with
  | nil =>
    intro ch w x hx
    simp only [Nl.addWeightCh, List.mem_singleton] at hx
    exact Or.inl (by rw [hx])
  | cons p rest ih =>
    intro ch w x hx
    obtain ⟨k, v⟩ := p
    simp only [Nl.addWeightCh] at hx
    by_cases hk : k = ch
    · rw [if_pos hk] at hx
      rcases List.mem_cons.mp hx with h1 | h1
      · exact Or.inl (by rw [h1, hk])
      · exact Or.inr ⟨x, List.mem_cons_of_mem _ h1, rfl⟩
    · rw [if_neg hk] at hx
      rcases List.mem_cons.mp hx with h1 | h1
      · exact Or.inr ⟨(k, v), List.mem_cons_self _ _, by rw [h1]⟩
      · rcases ih ch w x h1 with h2 | ⟨y, hy, hyx⟩
        · exact Or.inl h2
        · exact Or.inr ⟨y, List.mem_cons_of_mem _ hy, hyx⟩

/-- Every key of the per-channel weight table of `best_channel_from_rows`
comes from the accumulator or from the channel of some record. -/
theorem foldl_rowWeights_key_mem :
    ∀ (rows : List Nl.BssRow) (acc : List (Nat × ℚ)) (x : Nat × ℚ),
      x ∈ rows.foldl Nl.rowWeightStep acc →
      (∃ y ∈ acc, y.1 = x.1) ∨ ∃ r ∈ rows, r.channel = some x.1 := by
  intro rows
  induction rows with
  | nil =>
    intro acc x hx
    exact Or.inl ⟨x, hx, rfl⟩
  | cons r rest ih =>
    intro acc x hx
    simp only [List.foldl_cons] at hx
    rcases ih _ x hx with ⟨y, hy, hyx⟩ | ⟨r', hr', hc⟩
    · have hstep : (∃ z ∈ acc, z.1 = y.1) ∨ r.channel = some y.1 := by
        obtain ⟨ss, bb, ff, sg, chh⟩ := r
        simp only [Nl.rowWeightStep] at hy
        rcases chh with _ | ch
        · exact Or.inl ⟨y, hy, rfl⟩
        · simp only at hy
          by_cases h0 : 0 < ch
          · rw [if_pos h0] at hy
            rcases addWeightCh_key_mem acc _ _ y hy with h1 | ⟨z, hz, hzy⟩
            · right
              rw [h1]
            · exact Or.inl ⟨z, hz, hzy⟩
          · rw [if_neg h0] at hy
            exact Or.inl ⟨y, hy, rfl⟩
      rcases hstep with ⟨z, hz, hzy⟩ | hch
      · exact Or.inl ⟨z, hz, by rw [hzy, hyx]⟩
      · refine Or.inr ⟨r, List.mem_cons_self r rest, ?_⟩
        rw [hch, hyx]
    · exact Or.inr ⟨r', List.mem_cons_of_mem r hr', hc⟩

/-- The sentinel-started minimum scan of `best_channel_from_rows` ends on
the accumulator's channel or on the channel of some table entry. -/
theorem foldl_rowMin_mem :
    ∀ (ws : List (Nat × ℚ)) (acc : Nat × Option ℚ),
      (ws.foldl
        (fun best e =>
          match best.2 with
          | none => (e.1, some e.2)
          | some bw => if e.2 < bw then (e.1, some e.2) else best) acc).1 = acc.1 ∨
      ∃ e ∈ ws,
        (ws.foldl
          (fun best e =>
            match best.2 with
            | none => (e.1, some e.2)
            | some bw => if e.2 < bw then (e.1, some e.2) else best) acc).1 = e.1 := by
  intro ws
  induction ws with
  | nil =>
    intro acc
    exact Or.inl rfl
  | cons e rest ih =>
    intro acc
    obtain ⟨a1, a2⟩ := acc
    simp only [List.foldl_cons]
    rcases a2 with _ | bw
    · simp only
      rcases ih (e.1, some e.2) with h1 | ⟨e', he', hc⟩
      · exact Or.inr ⟨e, List.mem_cons_self e rest, h1⟩
      · exact Or.inr ⟨e', List.mem_cons_of_mem e he', hc⟩
    · simp only
      by_cases hlt : e.2 < bw
      · rw [if_pos hlt]
        rcases ih (e.1, some e.2) with h1 | ⟨e', he', hc⟩
        · exact Or.inr ⟨e, List.mem_cons_self e rest, h1⟩
        · exact Or.inr ⟨e', List.mem_cons_of_mem e he', hc⟩
      · rw [if_neg hlt]
        rcases ih (a1, some bw) with h1 | ⟨e', he', hc⟩
        · exact Or.inl h1
        · exact Or.inr ⟨e', List.mem_cons_of_mem e he', hc⟩

/-- C10: the recommended channel never comes from outside the inputs: in
the connected-aware selector it is the default 1, the connected current
channel (as found by `findCurrent`), or a channel keyed in the
interference-weight table, which in turn is the channel of some input
record; likewise for the connectionless scorer of src/lib_rust.rs. -/
theorem C10_channel_provenance :
    (∀ (rows : List Backend.BssRow) (connected : Option Backend.Mac),
      Backend.compute_best_channel_core rows connected = 1 ∨
      (∃ (cmac : Backend.Mac) (b : Nat), connected = some cmac ∧
        Backend.findCurrent rows cmac =
          some (Backend.compute_best_channel_core rows connected, b)) ∨
      ((∃ x ∈ Backend.buildWeight connected rows,
          x.1.2 = Backend.compute_best_channel_core rows connected) ∧
        ∃ r ∈ rows,
          r.channel = some (Backend.compute_best_channel_core rows connected))) ∧
    (∀ rows : List Nl.BssRow,
      Nl.best_channel_from_rows rows = 1 ∨
      ((∃ x ∈ Nl.rowWeights rows, x.1 = Nl.best_channel_from_rows rows) ∧
        ∃ r ∈ rows, r.channel = some (Nl.best_channel_from_rows rows))) := by
  constructor
  · intro rows connected
    rcases connected with _ | cmac
    · have hcore : Backend.compute_best_channel_core rows none =
          (if (Backend.buildWeight none rows).isEmpty then 1
           else
             match Backend.globalArgmin (Backend.buildWeight none rows) with
             | some p => p.1
             | none => 1) := rfl
      rw [hcore]
      by_cases htbl : (Backend.buildWeight none rows).isEmpty
      · rw [if_pos htbl]
        exact Or.inl rfl
      · rw [if_neg htbl]
        rcases hga : Backend.globalArgmin (Backend.buildWeight none rows) with _ | p
        · exact Or.inl rfl
        · simp only
          unfold Backend.globalArgmin at hga
          rcases foldl_globalMin_mem _ none p hga with h1 | ⟨e, he, hc, hw⟩
          · exact absurd h1 (by simp)
          · refine Or.inr (Or.inr ⟨⟨e, he, hc⟩, ?_⟩)
            have he' : e ∈ rows.foldl (Backend.weightStep none) [] := by
              unfold Backend.buildWeight at he
              exact he
            rcases foldl_weight_key_mem none rows [] e he' with ⟨y, hy, _⟩ | ⟨r, hr, hch⟩
            · exact absurd hy (List.not_mem_nil y)
            · exact ⟨r, hr, by rw [hch, hc]⟩
    · rcases hfc : Backend.findCurrent rows cmac with _ | cb
      · have hcore : Backend.compute_best_channel_core rows (some cmac) =
            (if (Backend.buildWeight (some cmac) rows).isEmpty then 1
             else
               match Backend.globalArgmin (Backend.buildWeight (some cmac) rows) with
               | some p => p.1
               | none => 1) := by
          simp only [Backend.compute_best_channel_core, hfc]
        rw [hcore]
        by_cases htbl : (Backend.buildWeight (some cmac) rows).isEmpty
        · rw [if_pos htbl]
          exact Or.inl rfl
        · rw [if_neg htbl]
          rcases hga : Backend.globalArgmin (Backend.buildWeight (some cmac) rows)
            with _ | p
          · exact Or.inl rfl
          · simp only
            unfold Backend.globalArgmin at hga
            rcases foldl_globalMin_mem _ none p hga with h1 | ⟨e, he, hc, hw⟩
            · exact absurd h1 (by simp)
            · refine Or.inr (Or.inr ⟨⟨e, he, hc⟩, ?_⟩)
              have he' : e ∈ rows.foldl (Backend.weightStep (some cmac)) [] := by
                unfold Backend.buildWeight at he
                exact he
              rcases foldl_weight_key_mem (some cmac) rows [] e he'
                with ⟨y, hy, _⟩ | ⟨r, hr, hch⟩
              · exact absurd hy (List.not_mem_nil y)
              · exact ⟨r, hr, by rw [hch, hc]⟩
      · obtain ⟨cur_ch, cur_band⟩ := cb
        rcases hbm : Backend.bandMin (Backend.buildWeight (some cmac) rows) cur_band
          with _ | bp
        · have hcore : Backend.compute_best_channel_core rows (some cmac) = cur_ch := by
            simp only [Backend.compute_best_channel_core, hfc, hbm]
          rw [hcore]
          exact Or.inr (Or.inl ⟨cmac, cur_band, rfl, hfc⟩)
        · obtain ⟨best_ch, best_w⟩ := bp
          have hcore : Backend.compute_best_channel_core rows (some cmac) =
              (if Backend.lookupWeight (Backend.buildWeight (some cmac) rows)
                  (cur_band, cur_ch) ≤ best_w + Backend.MARGIN
               then cur_ch else best_ch) := by
            simp only [Backend.compute_best_channel_core, hfc, hbm]
          rw [hcore]
          by_cases hle : Backend.lookupWeight (Backend.buildWeight (some cmac) rows)
              (cur_band, cur_ch) ≤ best_w + Backend.MARGIN
          · rw [if_pos hle]
            exact Or.inr (Or.inl ⟨cmac, cur_band, rfl, hfc⟩)
          · rw [if_neg hle]
            unfold Backend.bandMin at hbm
            rcases foldl_bandMin_mem cur_band _ none (best_ch, best_w) hbm
              with h1 | ⟨e, he, hband, hc, hw⟩
            · exact absurd h1 (by simp)
            · refine Or.inr (Or.inr ⟨⟨e, he, hc⟩, ?_⟩)
              have he' : e ∈ rows.foldl (Backend.weightStep (some cmac)) [] := by
                unfold Backend.buildWeight at he
                exact he
              rcases foldl_weight_key_mem (some cmac) rows [] e he'
                with ⟨y, hy, _⟩ | ⟨r, hr, hch⟩
              · exact absurd hy (List.not_mem_nil y)
              · exact ⟨r, hr, by rw [hch, hc]⟩
  · intro rows
    by_cases hw : (Nl.rowWeights rows).isEmpty
    · left
      simp only [Nl.best_channel_from_rows, hw, if_true]
    · have hres : Nl.best_channel_from_rows rows =
          ((Nl.rowWeights rows).foldl
            (fun best e =>
              match best.2 with
              | none => (e.1, some e.2)
              | some bw => if e.2 < bw then (e.1, some e.2) else best)
            ((1 : Nat), (none : Option ℚ))).1 := by
        simp only [Nl.best_channel_from_rows, hw, if_false, Bool.false_eq_true]
      rcases foldl_rowMin_mem (Nl.rowWeights rows) ((1 : Nat), (none : Option ℚ))
        with h1 | ⟨e, he, hc⟩
      · left
        rw [hres, h1]
      · right
        refine ⟨⟨e, he, by rw [hres, hc]⟩, ?_⟩
        have he' : e ∈ rows.foldl Nl.rowWeightStep [] := by
          unfold Nl.rowWeights at he
          exact he
        rcases foldl_rowWeights_key_mem rows [] e he' with ⟨y, hy, _⟩ | ⟨r, hr, hch⟩
        · exact absurd hy (List.not_mem_nil y)
        · exact ⟨r, hr, by rw [hres, hc]; exact hch⟩

/-- The bounds-checked walk never fails and agrees with the total walk:
every byte access of the loop is guarded before it happens. -/
theorem decodeChkAux_eq : ∀ fuel bs,
    Nl.decodeChkAux fuel bs = some (Nl.decodeAux fuel bs) := by
  intro fuel
  induction fuel with
  | zero =>
    intro bs
    rfl
  | succ n ih =>
    intro bs
    match bs with
    | [] => rfl
    | [a] => rfl
    | [a, b] => rfl
    | [a, b, c] => rfl
    | b0 :: b1 :: b2 :: b3 :: rest =>
      simp only [Nl.decodeChkAux, Nl.decodeAux]
      have h4 : ¬ ((b0 :: b1 :: b2 :: b3 :: rest).length < 4) := by
        simp [List.length_cons]
      rw [if_neg h4]
      simp only [List.get?]
      by_cases hg : b0 + 256 * b1 < 4 ∨
          (b0 :: b1 :: b2 :: b3 :: rest).length < b0 + 256 * b1
      · rw [if_pos hg, if_pos hg]
      · rw [if_neg hg, if_neg hg]
        have hlen4 : 4 ≤ b0 + 256 * b1 := by omega
        have hlenle : b0 + 256 * b1 ≤ (b0 :: b1 :: b2 :: b3 :: rest).length := by omega
        have hs : Nl.sliceChk (b0 :: b1 :: b2 :: b3 :: rest) 4 (b0 + 256 * b1) =
            some (rest.take (b0 + 256 * b1 - 4)) := by
          simp only [Nl.sliceChk]
          rw [if_pos ⟨hlen4, hlenle⟩]
          rfl
        rw [hs]
        dsimp only
        by_cases ha : (b0 :: b1 :: b2 :: b3 :: rest).length <
            (b0 + 256 * b1 + 3) / 4 * 4
        · rw [if_pos ha, if_pos ha]
        · rw [if_neg ha, if_neg ha, ih]

/-- The encoding of one well-formed entry occupies its padded length. -/
theorem encodeAttr_length (e : Nat × List Nat) :
    (Nl.encodeAttr e).length = (e.2.length + 4 + 3) / 4 * 4 := by
  simp only [Nl.encodeAttr, List.length_cons, List.length_append, List.length_replicate]
  omega

/-- Decoding one well-formed padded entry at the head of a buffer yields
that entry and continues with the remainder. -/
theorem decodeAux_step (fuel : Nat) (e : Nat × List Nat) (tail : List Nat)
    (hw : Nl.wfAttr e) :
    Nl.decodeAux (fuel + 1) (Nl.encodeAttr e ++ tail) = e :: Nl.decodeAux fuel tail := by
  obtain ⟨hwt, hwl⟩ := hw
  have hlenrec : (e.2.length + 4) % 256 + 256 * ((e.2.length + 4) / 256) =
      e.2.length + 4 := by
    omega
  have htrec : e.1 % 256 + 256 * (e.1 / 256) = e.1 := by omega
  have hel := encodeAttr_length e
  simp only [Nl.encodeAttr, List.cons_append]
  simp only [Nl.decodeAux]
  rw [hlenrec, htrec]
  have hlentotal : (((e.2.length + 4) % 256) :: ((e.2.length + 4) / 256) :: (e.1 % 256) ::
      (e.1 / 256) ::
      ((e.2 ++ List.replicate ((e.2.length + 4 + 3) / 4 * 4 - (e.2.length + 4)) 0) ++
        tail)).length = (e.2.length + 4 + 3) / 4 * 4 + tail.length := by
    simp only [List.length_cons, List.length_append, List.length_replicate]
    omega
  have hguard : ¬ (e.2.length + 4 < 4 ∨
      (((e.2.length + 4) % 256) :: ((e.2.length + 4) / 256) :: (e.1 % 256) :: (e.1 / 256) ::
        ((e.2 ++ List.replicate ((e.2.length + 4 + 3) / 4 * 4 - (e.2.length + 4)) 0) ++
          tail)).length < e.2.length + 4) := by
    rw [hlentotal]
    omega
  rw [if_neg hguard]
  have hadv : ¬ ((((e.2.length + 4) % 256) :: ((e.2.length + 4) / 256) :: (e.1 % 256) ::
      (e.1 / 256) ::
      ((e.2 ++ List.replicate ((e.2.length + 4 + 3) / 4 * 4 - (e.2.length + 4)) 0) ++
        tail)).length < (e.2.length + 4 + 3) / 4 * 4) := by
    rw [hlentotal]
    omega
  rw [if_neg hadv]
  have htake : List.take (e.2.length + 4 - 4)
      ((e.2 ++ List.replicate ((e.2.length + 4 + 3) / 4 * 4 - (e.2.length + 4)) 0) ++
        tail) = e.2 := by
    rw [List.append_assoc]
    have h4 : e.2.length + 4 - 4 = e.2.length := by omega
    rw [h4]
    exact List.take_left e.2 _
  have hdrop : List.drop ((e.2.length + 4 + 3) / 4 * 4)
      ((((e.2.length + 4) % 256) :: ((e.2.length + 4) / 256) :: (e.1 % 256) :: (e.1 / 256) ::
        ((e.2 ++ List.replicate ((e.2.length + 4 + 3) / 4 * 4 - (e.2.length + 4)) 0) ++
          tail))) = tail := by
    have hsplit : (((e.2.length + 4) % 256) :: ((e.2.length + 4) / 256) :: (e.1 % 256) ::
        (e.1 / 256) ::
        ((e.2 ++ List.replicate ((e.2.length + 4 + 3) / 4 * 4 - (e.2.length + 4)) 0) ++
          tail)) = Nl.encodeAttr e ++ tail := by
      simp [Nl.encodeAttr, List.cons_append]
    rw [hsplit]
    exact List.drop_left' hel
  rw [htake, hdrop]

/-- Decoding a concatenation of well-formed padded entries, with enough
fuel, recovers exactly those entries in order. -/
theorem decodeAux_encode : ∀ es fuel, (∀ e ∈ es, Nl.wfAttr e) →
    (Nl.encodeAttrs es).length ≤ fuel → Nl.decodeAux fuel (Nl.encodeAttrs es) = es := by
  intro es
  induction es with
  | nil =>
    intro fuel _ _
    cases fuel <;> rfl
  | cons e es ih =>
    intro fuel hwf hfuel
    have hwfe : Nl.wfAttr e := hwf e (List.mem_cons_self e es)
    have henc : Nl.encodeAttrs (e :: es) = Nl.encodeAttr e ++ Nl.encodeAttrs es := by
      simp [Nl.encodeAttrs]
    have hel := encodeAttr_length e
    match fuel with
    | 0 =>
      exfalso
      rw [henc, List.length_append, hel] at hfuel
      omega
    | fuel + 1 =>
      rw [henc, decodeAux_step fuel e (Nl.encodeAttrs es) hwfe]
      rw [ih fuel (fun x hx => hwf x (List.mem_cons_of_mem e hx))]
      rw [henc, List.length_append, hel] at hfuel
      omega

/-- C3: the BSS attribute decoder is safe and complete: (1) the
bounds-checked walk (where every raw byte access is partial) never fails
and agrees with the walk, so no read ever passes the buffer's end and no
input can make it panic or error; (2) it stops when fewer than 4 bytes
remain; (3) it stops when the declared length is less than 4 or exceeds
the remaining buffer; (4) on a valid concatenation of N well-formed
4-byte-aligned TLV entries it yields exactly those N entries in order;
(5) `parse_bss` always returns a row, never an error. -/
theorem C3_decoder_safe_and_complete :
    (∀ bs : List Nat, Nl.decode_attrs_checked bs = some (Nl.decode_attrs bs)) ∧
    (∀ bs : List Nat, bs.length < 4 → Nl.decode_attrs bs = []) ∧
    (∀ (b0 b1 b2 b3 : Nat) (rest : List Nat),
      (b0 + 256 * b1 < 4 ∨ rest.length + 4 < b0 + 256 * b1) →
      Nl.decode_attrs (b0 :: b1 :: b2 :: b3 :: rest) = []) ∧
    (∀ es : List (Nat × List Nat), (∀ e ∈ es, Nl.wfAttr e) →
      Nl.decode_attrs (Nl.encodeAttrs es) = es) ∧
    (∀ bs : List Nat, (Nl.parse_bss bs).isSome = true) := by
  refine ⟨?_, ?_, ?_, ?_, ?_⟩
  · intro bs
    exact decodeChkAux_eq bs.length bs
  · intro bs h
    rcases bs with _ | ⟨a, _ | ⟨b, _ | ⟨c, _ | ⟨d, rest⟩⟩⟩⟩
    · rfl
    · rfl
    · rfl
    · rfl
    · exfalso
      simp only [List.length_cons] at h
      omega
  · intro b0 b1 b2 b3 rest hguard
    show Nl.decodeAux (rest.length + 3 + 1) (b0 :: b1 :: b2 :: b3 :: rest) = []
    rw [Nl.decodeAux]
    have hg : b0 + 256 * b1 < 4 ∨
        (b0 :: b1 :: b2 :: b3 :: rest).length < b0 + 256 * b1 := by
      simp only [List.length_cons]
      omega
    simp only
    rw [if_pos hg]
  · intro es hwf
    exact decodeAux_encode es (Nl.encodeAttrs es).length hwf (Nat.le_refl _)
  · intro bs
    rfl

/-- C3 witness: the round-trip applied to a concrete two-entry buffer (a
BSSID-like entry of 6 bytes and a one-byte entry needing 3 padding
bytes), and the length-guard applied to a concrete truncated buffer. -/
theorem C3_witness :
    Nl.decode_attrs (Nl.encodeAttrs [(1, [10, 20, 30, 40, 50, 60]), (7, [55])]) =
      [(1, [10, 20, 30, 40, 50, 60]), (7, [55])] ∧
    Nl.decode_attrs [9, 9, 9] = [] := by
  constructor
  · exact C3_decoder_safe_and_complete.2.2.2.1
      [(1, [10, 20, 30, 40, 50, 60]), (7, [55])] (by norm_num [Nl.wfAttr])
  · exact C3_decoder_safe_and_complete.2.1 [9, 9, 9] (by decide)

/-- The row-building loop is the fold of the attribute arms over the
entries the walk yields. -/
theorem parseLoopAux_foldl : ∀ fuel bs row,
    Nl.parseLoopAux fuel bs row = (Nl.decodeAux fuel bs).foldl Nl.applyAttr row := by
  intro fuel
  induction fuel with
  | zero =>
    intro bs row
    rfl
  | succ n ih =>
    intro bs row
    match bs with
    | [] => rfl
    | [a] => rfl
    | [a, b] => rfl
    | [a, b, c] => rfl
    | b0 :: b1 :: b2 :: b3 :: rest =>
      simp only [Nl.parseLoopAux, Nl.decodeAux]
      by_cases hg : b0 + 256 * b1 < 4 ∨
          (b0 :: b1 :: b2 :: b3 :: rest).length < b0 + 256 * b1
      · rw [if_pos hg, if_pos hg]
        rfl
      · rw [if_neg hg, if_neg hg]
        by_cases ha : (b0 :: b1 :: b2 :: b3 :: rest).length <
            (b0 + 256 * b1 + 3) / 4 * 4
        · rw [if_pos ha, if_pos ha]
          rfl
        · rw [if_neg ha, if_neg ha]
          rw [List.foldl_cons]
          exact ih _ _

/-- No arm of the attribute match ever clears or replaces an
already-present SSID. -/
theorem applyAttr_ssid_mono (row : Nl.BssRow) (e : Nat × List Nat) (s : List Nat)
    (h : row.ssid = some s) : (Nl.applyAttr row e).ssid = some s := by
  simp only [Nl.applyAttr]
  split_ifs <;> (repeat' split) <;> simp_all

/-- A well-formed precise (type 10) entry always sets the signal to its
own mBm value, regardless of the previous signal. -/
theorem applyAttr_precise (row : Nl.BssRow) (e : Nat × List Nat) (v : ℚ)
    (h : Nl.preciseSignalOf e = some v) : (Nl.applyAttr row e).signal_dbm = some v := by
  unfold Nl.preciseSignalOf at h
  split_ifs at h with h10
  rcases hle : Nl.le_u32 e.2 with _ | v0
  · rw [hle] at h
    cases h
  · rw [hle] at h
    simp only at h
    simp only [Nl.applyAttr, h10, hle]
    norm_num
    exact Option.some.inj h

/-- Entries that are not well-formed precise signals never replace a
present signal (in particular the coarse type 7 arm is guarded). -/
theorem applyAttr_signal_preserve (row : Nl.BssRow) (e : Nat × List Nat) (s : ℚ)
    (he : Nl.preciseSignalOf e = none) (h : row.signal_dbm = some s) :
    (Nl.applyAttr row e).signal_dbm = some s := by
  unfold Nl.preciseSignalOf at he
  simp only [Nl.applyAttr]
  split_ifs <;> (repeat' split) <;> simp_all

/-- Once the SSID is set, the whole fold keeps it. -/
theorem foldl_ssid_mono : ∀ (es : List (Nat × List Nat)) (row : Nl.BssRow)
    (s : List Nat), row.ssid = some s →
    (es.foldl Nl.applyAttr row).ssid = some s := by
  intro es
  induction es with
  | nil =>
    intro row s h
    exact h
  | cons e rest ih =>
    intro row s h
    rw [List.foldl_cons]
    exact ih _ s (applyAttr_ssid_mono row e s h)

/-- Splitting `lastPrecise` at a final entry. -/
theorem lastPrecise_append (es : List (Nat × List Nat)) (e : Nat × List Nat) :
    Nl.lastPrecise (es ++ [e]) =
      match Nl.preciseSignalOf e with
      | some v => some v
      | none => Nl.lastPrecise es := by
  simp [Nl.lastPrecise, List.foldl_append]

/-- The fold's final signal is the last well-formed precise entry's value
whenever one exists. -/
theorem foldl_signal_lastPrecise : ∀ (es : List (Nat × List Nat)) (row : Nl.BssRow)
    (v : ℚ), Nl.lastPrecise es = some v →
    (es.foldl Nl.applyAttr row).signal_dbm = some v := by
  intro es
  induction es using List.reverseRecOn with
  | nil =>
    intro row v h
    cases h
  | append_singleton es e ih =>
    intro row v h
    rw [lastPrecise_append] at h
    rw [List.foldl_append, List.foldl_cons, List.foldl_nil]
    rcases hp : Nl.preciseSignalOf e with _ | w
    · rw [hp] at h
      simp only at h
      exact applyAttr_signal_preserve _ e v hp (ih row v h)
    · rw [hp] at h
      simp only at h
      cases h
      exact applyAttr_precise _ e v hp

/-- C6 counterexample: a BSS payload with two BSSID (type 1) attributes.
First-match-wins would keep the first MAC (01:02:03:04:05:06); the decoder
instead returns the second (09:09:09:09:09:09): a later occurrence
overwrites the already-set field. -/
theorem C6_counterexample :
    Nl.parse_bss
        [10, 0, 1, 0, 1, 2, 3, 4, 5, 6, 0, 0,
         10, 0, 1, 0, 9, 9, 9, 9, 9, 9, 0, 0] =
      some ⟨none, some (Nl.format_mac [9, 9, 9, 9, 9, 9]), none, none, none⟩ ∧
    Nl.format_mac [9, 9, 9, 9, 9, 9] ≠ Nl.format_mac [1, 2, 3, 4, 5, 6] := by
  constructor
  · rfl
  · decide

/-- C6 amended: field priority is per-field, not uniformly
first-match-wins.  (1) The SSID really is first-match-wins: once set it is
never overwritten by any later attribute.  (2) The coarse (type 7) signal
arm only fires when no signal is set.  (3) Whenever a well-formed precise
(type 10) attribute is present, the final signal is the value of the last
such attribute — so the coarse value is used only if the precise one is
absent.  (4) BSSID (type 1) and (5) frequency (type 2) are last-match-wins:
every well-formed occurrence overwrites the field. -/
theorem C6_field_priority_amended :
    (∀ (fuel : Nat) (bs : List Nat) (row : Nl.BssRow) (s : List Nat),
      row.ssid = some s → (Nl.parseLoopAux fuel bs row).ssid = some s) ∧
    (∀ (row : Nl.BssRow) (p : List Nat) (s : ℚ), row.signal_dbm = some s →
      (Nl.applyAttr row (7, p)).signal_dbm = some s) ∧
    (∀ (bs : List Nat) (v : ℚ) (r : Nl.BssRow),
      Nl.lastPrecise (Nl.decode_attrs bs) = some v →
      Nl.parse_bss bs = some r → r.signal_dbm = some v) ∧
    (∀ (row : Nl.BssRow) (p : List Nat), 6 ≤ p.length →
      (Nl.applyAttr row (1, p)).bssid = some (Nl.format_mac p)) ∧
    (∀ (row : Nl.BssRow) (p : List Nat) (f : Nat), Nl.le_u32 p = some f →
      (Nl.applyAttr row (2, p)).freq_mhz = some f ∧
      (Nl.applyAttr row (2, p)).channel = Nl.freq_to_channel f) := by
  refine ⟨?_, ?_, ?_, ?_, ?_⟩
  · intro fuel bs row s h
    rw [parseLoopAux_foldl]
    exact foldl_ssid_mono _ row s h
  · intro row p s h
    exact applyAttr_signal_preserve row (7, p) s (by simp [Nl.preciseSignalOf]) h
  · intro bs v r hlast hparse
    have hr : r = Nl.parseLoopAux bs.length bs Nl.defaultRow :=
      (Option.some.inj hparse).symm
    rw [hr, parseLoopAux_foldl]
    exact foldl_signal_lastPrecise _ _ v hlast
  · intro row p hp
    simp [Nl.applyAttr, hp]
  · intro row p f hf
    constructor
    · simp [Nl.applyAttr, hf]
    · simp [Nl.applyAttr, hf]

/-- C6 witness: the amended parts applied to concrete rows: a second BSSID
attribute overwrites a present one, and a coarse signal attribute leaves a
present signal unchanged. -/
theorem C6_witness :
    (Nl.applyAttr ⟨none, some (Nl.format_mac [1, 2, 3, 4, 5, 6]), none, none, none⟩
        (1, [9, 9, 9, 9, 9, 9])).bssid = some (Nl.format_mac [9, 9, 9, 9, 9, 9]) ∧
    (Nl.applyAttr ⟨none, none, none, some (-55), none⟩ (7, [40])).signal_dbm =
      some (-55) := by
  constructor
  · exact C6_field_priority_amended.2.2.2.1
      ⟨none, some (Nl.format_mac [1, 2, 3, 4, 5, 6]), none, none, none⟩
      [9, 9, 9, 9, 9, 9] (by decide)
  · exact C6_field_priority_amended.2.1
      ⟨none, none, none, some (-55), none⟩ [40] (-55) rfl

/-- If the transport never yields a definitive notification, the wait loop
times out (for every start index and fuel). -/
theorem waitLoop_no_definitive (poll : Nat → Nl.PollRes) (e : Nat → Nat)
    (h : ∀ j, poll j ≠ .got .newScanResults ∧ poll j ≠ .got .scanAborted) :
    ∀ fuel i, Nl.waitLoop poll e 4000 i fuel = .timedOut := by
  intro fuel
  induction fuel with
  | zero =>
    intro i
    rfl
  | succ n ih =>
    intro i
    rw [Nl.waitLoop]
    by_cases hi : e i < 4000
    · rw [if_pos hi]
      rcases hp : poll i with _ | _ | c
      · exact ih (i + 1)
      · exact ih (i + 1)
      · rcases c with _ | _ | _
        · exact absurd hp (h i).1
        · exact absurd hp (h i).2
        · exact ih (i + 1)
    · rw [if_neg hi]

/-- The wait loop only succeeds when some poll actually returned the
"scan results ready" command. -/
theorem waitLoop_ok_has_ready (poll : Nat → Nl.PollRes) (e : Nat → Nat) :
    ∀ fuel i, Nl.waitLoop poll e 4000 i fuel = .ok →
      ∃ j, poll j = .got .newScanResults := by
  intro fuel
  induction fuel with
  | zero =>
    intro i h
    cases h
  | succ n ih =>
    intro i h
    rw [Nl.waitLoop] at h
    by_cases hi : e i < 4000
    · rw [if_pos hi] at h
      rcases hp : poll i with _ | _ | c
      · rw [hp] at h
        exact ih (i + 1) h
      · rw [hp] at h
        exact ih (i + 1) h
      · rcases c with _ | _ | _
        · exact ⟨i, hp⟩
        · rw [hp] at h
          cases h
        · rw [hp] at h
          exact ih (i + 1) h
    · rw [if_neg hi] at h
      cases h

/-- If the first definitive notification is "scan aborted" and arrives
within the time and fuel bounds, the wait loop fails with the abort. -/
theorem waitLoop_aborted (poll : Nat → Nl.PollRes) (e : Nat → Nat) :
    ∀ (k i fuel : Nat),
      (∀ j, j < k → poll (i + j) ≠ .got .newScanResults ∧
        poll (i + j) ≠ .got .scanAborted) →
      poll (i + k) = .got .scanAborted →
      (∀ j, j ≤ k → e (i + j) < 4000) →
      k < fuel →
      Nl.waitLoop poll e 4000 i fuel = .abortedScan := by
  intro k
  induction k with
  | zero =>
    intro i fuel hnd hp he hfuel
    match fuel, hfuel with
    | f + 1, _ =>
      rw [Nl.waitLoop]
      have hi : e i < 4000 := by
        have := he 0 (Nat.le_refl 0)
        rwa [Nat.add_zero] at this
      rw [if_pos hi]
      rw [Nat.add_zero] at hp
      rw [hp]
  | succ k ih =>
    intro i fuel hnd hp he hfuel
    match fuel, hfuel with
    | f + 1, _ =>
      rw [Nl.waitLoop]
      have hi : e i < 4000 := by
        have := he 0 (Nat.zero_le _)
        rwa [Nat.add_zero] at this
      rw [if_pos hi]
      have hnd0 := hnd 0 (Nat.succ_pos k)
      rw [Nat.add_zero] at hnd0
      have hrec : Nl.waitLoop poll e 4000 (i + 1) f = .abortedScan := by
        apply ih (i + 1) f
        · intro j hj
          have := hnd (j + 1) (by omega)
          rwa [show i + (j + 1) = i + 1 + j by omega] at this
        · rwa [show i + (k + 1) = i + 1 + k by omega] at hp
        · intro j hj
          have := he (j + 1) (by omega)
          rwa [show i + (j + 1) = i + 1 + j by omega] at this
        · omega
      rcases hpi : poll i with _ | _ | c
      · exact hrec
      · exact hrec
      · rcases c with _ | _ | _
        · exact absurd hpi hnd0.1
        · exact absurd hpi hnd0.2
        · exact hrec

/-- With a real clock (at least one millisecond per iteration), the loop's
result does not depend on the fuel bound once it covers the timeout: the
loop cannot run forever. -/
theorem waitLoop_fuel_stable (poll : Nat → Nl.PollRes) (e : Nat → Nat)
    (hmono : ∀ j, j ≤ e j) :
    ∀ (fuel1 fuel2 i : Nat), 4000 - i < fuel1 → 4000 - i < fuel2 →
      Nl.waitLoop poll e 4000 i fuel1 = Nl.waitLoop poll e 4000 i fuel2 := by
  intro fuel1
  induction fuel1 with
  | zero =>
    intro fuel2 i h1 h2
    omega
  | succ f1 ih =>
    intro fuel2 i h1 h2
    match fuel2 with
    | 0 => omega
    | f2 + 1 =>
      rw [Nl.waitLoop, Nl.waitLoop]
      by_cases hi : e i < 4000
      · rw [if_pos hi, if_pos hi]
        have hilt : i < 4000 := Nat.lt_of_le_of_lt (hmono i) hi
        have hrec : Nl.waitLoop poll e 4000 (i + 1) f1 =
            Nl.waitLoop poll e 4000 (i + 1) f2 := by
          apply ih f2 (i + 1) <;> omega
        rcases poll i with _ | _ | c
        · exact hrec
        · exact hrec
        · rcases c with _ | _ | _
          · rfl
          · rfl
          · exact hrec
      · rw [if_neg hi, if_neg hi]

/-- C7: the scan driver's wait step.  (1) A transport that never yields a
"results ready" or "scan aborted" notification makes `wait_scan_done`
fail with the timeout once the 4000 ms bound elapses.  (2) It never
succeeds without an actual "results ready" notification.  (3) If the
first definitive notification is "scan aborted" (arriving within the
bound), it fails with the abort instead.  (4) Under a real clock (each
iteration costing at least 1 ms) the result is independent of any fuel
bound covering the timeout: the loop terminates, it cannot hang. -/
theorem C7_scan_timeout (poll : Nat → Nl.PollRes) (e : Nat → Nat) :
    ((∀ j, poll j ≠ .got .newScanResults ∧ poll j ≠ .got .scanAborted) →
      Nl.wait_scan_done poll e = .timedOut) ∧
    (Nl.wait_scan_done poll e = .ok → ∃ j, poll j = .got .newScanResults) ∧
    (∀ i, i ≤ 4000 →
      (∀ j, j < i → poll j ≠ .got .newScanResults ∧ poll j ≠ .got .scanAborted) →
      poll i = .got .scanAborted → (∀ j, j ≤ i → e j < 4000) →
      Nl.wait_scan_done poll e = .abortedScan) ∧
    ((∀ j, j ≤ e j) → ∀ fuel, 4000 < fuel →
      Nl.waitLoop poll e 4000 0 fuel = Nl.wait_scan_done poll e) := by
  refine ⟨?_, ?_, ?_, ?_⟩
  · intro h
    exact waitLoop_no_definitive poll e h 4001 0
  · intro h
    exact waitLoop_ok_has_ready poll e 4001 0 h
  · intro i hi hnd hp he
    apply waitLoop_aborted poll e i 0 4001
    · intro j hj
      rw [Nat.zero_add]
      exact hnd j hj
    · rw [Nat.zero_add]
      exact hp
    · intro j hj
      rw [Nat.zero_add]
      exact he j hj
    · omega
  · intro hmono fuel hfuel
    exact waitLoop_fuel_stable poll e hmono fuel 4001 0 (by omega) (by omega)

/-- C7 witness: a transport that never has a message queued times out, and
a transport whose very first message is "scan aborted" aborts. -/
theorem C7_witness :
    Nl.wait_scan_done (fun _ => Nl.PollRes.noMsg) (fun i => 20 * i) =
      Nl.WaitResult.timedOut ∧
    Nl.wait_scan_done (fun _ => Nl.PollRes.got Nl.Cmd.scanAborted) (fun i => 20 * i) =
      Nl.WaitResult.abortedScan := by
  constructor
  · exact (C7_scan_timeout (fun _ => Nl.PollRes.noMsg) (fun i => 20 * i)).1
      (fun j => ⟨by decide, by decide⟩)
  · exact (C7_scan_timeout (fun _ => Nl.PollRes.got Nl.Cmd.scanAborted)
      (fun i => 20 * i)).2.2.1 0 (by decide) (fun j hj => absurd hj (Nat.not_lt_zero j))
      rfl (fun j hj => by omega)

/-- The dump loop, however far along and whatever it accumulated, bails
out with the transport error as soon as an error marker arrives. -/
theorem dump_loop_err (rest : List Nl.DumpItem) (attrs : List (Nat × List Nat)) :
    ∀ (pre : List Nl.DumpItem) (acc : List Nl.BssRow),
      (∀ it ∈ pre, ∃ a, it = Nl.DumpItem.msg Nl.NlMsgType.dataMsg a) →
      Nl.dump_loop (pre ++ Nl.DumpItem.msg Nl.NlMsgType.errMsg attrs :: rest) acc =
        Except.error Nl.getScanErrMsg := by
  intro pre
  induction pre with
  | nil =>
    intro acc _
    rfl
  | cons it pre ih =>
    intro acc hdata
    obtain ⟨a, rfl⟩ := hdata it (List.mem_cons_self it pre)
    rw [List.cons_append]
    exact ih _ (fun x hx => hdata x (List.mem_cons_of_mem _ hx))

/-- C8: during the dump phase, an explicit error marker message at any
point of the multi-message sequence makes the call fail with the
transport error; the rows extracted from the preceding data messages are
discarded — an `Except.error` carries no record list, so partial results
are never returned. -/
theorem C8_dump_atomicity (pre rest : List Nl.DumpItem)
    (attrs : List (Nat × List Nat))
    (hdata : ∀ it ∈ pre, ∃ a, it = Nl.DumpItem.msg Nl.NlMsgType.dataMsg a) :
    Nl.dump_scan_results
        (pre ++ Nl.DumpItem.msg Nl.NlMsgType.errMsg attrs :: rest) =
      Except.error Nl.getScanErrMsg :=
  dump_loop_err rest attrs pre [] hdata

/-- C8 witness: one data message carrying a parsed BSS attribute followed
by an error marker still yields the transport error, not the partial row. -/
theorem C8_witness :
    Nl.dump_scan_results
        [Nl.DumpItem.msg Nl.NlMsgType.dataMsg [(47, [10, 0, 1, 0, 1, 2, 3, 4, 5, 6, 0, 0])],
         Nl.DumpItem.msg Nl.NlMsgType.errMsg []] =
      Except.error Nl.getScanErrMsg :=
  C8_dump_atomicity
    [Nl.DumpItem.msg Nl.NlMsgType.dataMsg [(47, [10, 0, 1, 0, 1, 2, 3, 4, 5, 6, 0, 0])]]
    [] []
    (fun it hit => ⟨[(47, [10, 0, 1, 0, 1, 2, 3, 4, 5, 6, 0, 0])],
      List.mem_singleton.mp hit⟩)
